import Mathlib

/-!
Verification of the DVF transaction normalization and multi-level aggregation
engine (`src/pipelines/clean_dvf.py` and `src/pipelines/aggregate.py`).

The Polars dataframes are embedded as lists of records with optional fields
(`Option String` for Utf8 columns, `Option ℚ` for Float64 columns; a `none`
is a null cell).  The embedding follows Polars semantics for the operations
the pipeline uses:
- `Expr.str.replace` substitutes only the first match;
- `Expr.str.replace_all` with pattern `\s+` removes every whitespace char;
- `cast(Float64, strict=False)` yields null when the text is not a number;
- `is_between(a, b)` is inclusive on both ends and false on null;
- comparisons and `is_in` are false (null) on null, so `filter` drops nulls;
- `quantile(q)` uses the Polars default `nearest` interpolation:
  the sorted value at index `round(q * (n-1))`, ties rounded away from zero;
- `median` is the linear-interpolation quantile at 0.5;
- `sort(col, descending=True)` places null values first (the Polars default
  `nulls_last=False` puts nulls at the start for both sort directions);
- `unique(subset, keep="first")` keeps the first row of each key group in
  frame order; the embedding fixes the deterministic sequential semantics
  (stable sort, first-occurrence group order) of the single-threaded batch
  model.
Floats are modelled as rationals; the only divergence (price/0 is `inf` for
Polars and `0` in ℚ) is immaterial because both fail the inclusive
`is_between 300 30000` filter that immediately follows the division.
-/

namespace DVF

/-! ### Generic list machinery: stable insertion sort and first-occurrence
deduplication, both structurally recursive so that concrete instances
evaluate by `rfl`/`decide`. -/

/-- Insert `a` into `l`, after every element `x` with `le x a = true`.
Used to build a stable sort. -/
def insertLe {α : Type} (le : α → α → Bool) (a : α) : List α → List α
  | [] => [a]
  | x :: xs => if le x a then x :: insertLe le a xs else a :: x :: xs

/-- Stable insertion sort with respect to the boolean preorder `le`. -/
def isort {α : Type} (le : α → α → Bool) (l : List α) : List α :=
  l.foldr (insertLe le) []

/-- Keep the first row of each `key` group, in order (fuel-indexed so the
recursion is structural). -/
def uniqueByFuel {α β : Type} [DecidableEq β] (key : α → β) :
    Nat → List α → List α
  | _, [] => []
  | 0, _ :: _ => []
  | n + 1, a :: l => a :: uniqueByFuel key n (l.filter (fun x => key x ≠ key a))

/-- Keep the first element of each `key` group, preserving order: the model
of Polars `unique(subset=[key], keep="first")`. -/
def uniqueBy {α β : Type} [DecidableEq β] (key : α → β) (l : List α) : List α :=
  uniqueByFuel key l.length l

theorem insertLe_perm {α : Type} (le : α → α → Bool) (a : α) (l : List α) :
    List.Perm (insertLe le a l) (a :: l) := by
  induction l with
  | nil => rfl
  | cons x xs ih =>
    by_cases h : le x a = true
    · simpa [insertLe, h] using ((ih.cons x).trans (List.Perm.swap a x xs))
    · simp [insertLe, h]

theorem isort_perm {α : Type} (le : α → α → Bool) (l : List α) :
    List.Perm (isort le l) l := by
  induction l with
  | nil => rfl
  | cons x xs ih => exact (insertLe_perm le x (isort le xs)).trans (ih.cons x)

theorem mem_isort {α : Type} (le : α → α → Bool) {a : α} {l : List α} :
    a ∈ isort le l ↔ a ∈ l :=
  (isort_perm le l).mem_iff

theorem pairwise_insertLe {α : Type} {le : α → α → Bool}
    (htrans : ∀ a b c, le a b = true → le b c = true → le a c = true)
    (htotal : ∀ a b, le a b = true ∨ le b a = true)
    {l : List α} (a : α) (h : l.Pairwise (fun x y => le x y = true)) :
    (insertLe le a l).Pairwise (fun x y => le x y = true) := by
  induction l with
  | nil => simp [insertLe]
  | cons x xs ih =>
    rcases h with _ | ⟨hx, hxs⟩
    by_cases hxa : le x a = true
    · rw [insertLe, if_pos hxa]
      refine List.Pairwise.cons ?_ (ih hxs)
      intro y hy
      rcases List.mem_cons.mp ((insertLe_perm le a xs).mem_iff.mp hy) with hy | hy
      · exact hy ▸ hxa
      · exact hx y hy
    · have hax : le a x = true := (htotal a x).resolve_right
        (fun h => hxa h)
      rw [insertLe, if_neg hxa]
      refine List.Pairwise.cons ?_ (List.Pairwise.cons hx hxs)
      intro y hy
      rcases List.mem_cons.mp hy with hy | hy
      · exact hy ▸ hax
      · exact htrans a x y hax (hx y hy)

theorem pairwise_isort {α : Type} {le : α → α → Bool}
    (htrans : ∀ a b c, le a b = true → le b c = true → le a c = true)
    (htotal : ∀ a b, le a b = true ∨ le b a = true) (l : List α) :
    (isort le l).Pairwise (fun x y => le x y = true) := by
  induction l with
  | nil => exact List.Pairwise.nil
  | cons x xs ih => exact pairwise_insertLe htrans htotal x ih

theorem uniqueByFuel_subset {α β : Type} [DecidableEq β] (key : α → β) :
    ∀ (n : Nat) (l : List α), ∀ a ∈ uniqueByFuel key n l, a ∈ l
  | _, [], a, ha => by simp [uniqueByFuel] at ha
  | 0, _ :: _, a, ha => by simp [uniqueByFuel] at ha
  | n + 1, x :: l, a, ha => by
    rcases List.mem_cons.mp ha with ha | ha
    · exact ha ▸ List.mem_cons_self x l
    · exact List.mem_cons_of_mem x
        (List.mem_of_mem_filter (uniqueByFuel_subset key n _ a ha))

theorem uniqueBy_subset {α β : Type} [DecidableEq β] (key : α → β)
    {l : List α} {a : α} (ha : a ∈ uniqueBy key l) : a ∈ l :=
  uniqueByFuel_subset key l.length l a ha

/-- Within the fuel bound, the first-kept element of a group is minimal for
any relation which pairwise-orders the input list. -/
theorem uniqueByFuel_first {α β : Type} [DecidableEq β] (key : α → β)
    (P : α → α → Prop) :
    ∀ (n : Nat) (l : List α), l.length ≤ n → l.Pairwise P →
      ∀ r ∈ uniqueByFuel key n l, ∀ x ∈ l, key x = key r → x = r ∨ P r x
  | _, [], _, _, r, hr, x, hx, _ => by simp at hx
  | 0, y :: l, hn, _, r, hr, x, hx, _ => by simp at hn
  | n + 1, y :: l, hn, hpw, r, hr, x, hx, hkey => by
    rcases hpw with _ | ⟨hy, hl⟩
    rcases List.mem_cons.mp hr with hr | hr
    · subst hr
      rcases List.mem_cons.mp hx with hx | hx
      · exact Or.inl hx
      · exact Or.inr (hy x hx)
    · have hkr : key r ≠ key y := by
        have hmem := uniqueByFuel_subset key n _ r hr
        have := List.of_mem_filter hmem
        simpa using this
      rcases List.mem_cons.mp hx with hx | hx
      · exact absurd (hx ▸ hkey.symm) hkr
      · have hxf : x ∈ l.filter (fun z => key z ≠ key y) := by
          refine List.mem_filter.mpr ⟨hx, ?_⟩
          simpa using hkey ▸ hkr
        have hlen : (l.filter (fun z => key z ≠ key y)).length ≤ n :=
          le_trans (l.length_filter_le _) (Nat.le_of_succ_le_succ hn)
        exact uniqueByFuel_first key P n _ hlen (hl.filter _) r hr x hxf hkey

theorem uniqueBy_first {α β : Type} [DecidableEq β] (key : α → β)
    {P : α → α → Prop} {l : List α} (hpw : l.Pairwise P) :
    ∀ r ∈ uniqueBy key l, ∀ x ∈ l, key x = key r → x = r ∨ P r x :=
  uniqueByFuel_first key P l.length l le_rfl hpw

/-- The keys of the deduplicated list are pairwise distinct. -/
theorem uniqueByFuel_keys_distinct {α β : Type} [DecidableEq β] (key : α → β) :
    ∀ (n : Nat) (l : List α),
      (uniqueByFuel key n l).Pairwise (fun a b => key a ≠ key b)
  | 0, l => by cases l <;> exact List.Pairwise.nil
  | n + 1, [] => List.Pairwise.nil
  | n + 1, y :: l => by
    refine List.Pairwise.cons ?_ (uniqueByFuel_keys_distinct key n _)
    intro b hb
    have hbf := uniqueByFuel_subset key n _ b hb
    have := List.of_mem_filter hbf
    simp only [decide_not, Bool.not_eq_true', decide_eq_false_iff_not] at this
    exact fun h => this h.symm

theorem uniqueBy_keys_distinct {α β : Type} [DecidableEq β] (key : α → β)
    (l : List α) : (uniqueBy key l).Pairwise (fun a b => key a ≠ key b) :=
  uniqueByFuel_keys_distinct key l.length l

/-- Every key of the input survives into the deduplicated list. -/
theorem uniqueByFuel_key_mem {α β : Type} [DecidableEq β] (key : α → β) :
    ∀ (n : Nat) (l : List α), l.length ≤ n →
      ∀ x ∈ l, ∃ r ∈ uniqueByFuel key n l, key r = key x
  | _, [], _, x, hx => by simp at hx
  | 0, y :: l, hn, x, hx => by simp at hn
  | n + 1, y :: l, hn, x, hx => by
    rcases List.mem_cons.mp hx with hx | hx
    · exact ⟨y, List.mem_cons_self _ _, by rw [hx]⟩
    · by_cases hkey : key x = key y
      · exact ⟨y, List.mem_cons_self _ _, hkey.symm⟩
      · have hxf : x ∈ l.filter (fun z => key z ≠ key y) :=
          List.mem_filter.mpr ⟨hx, by simpa using hkey⟩
        have hlen : (l.filter (fun z => key z ≠ key y)).length ≤ n :=
          le_trans (l.length_filter_le _) (Nat.le_of_succ_le_succ hn)
        obtain ⟨r, hr, hrk⟩ := uniqueByFuel_key_mem key n _ hlen x hxf
        exact ⟨r, List.mem_cons_of_mem _ hr, hrk⟩

theorem uniqueBy_key_mem {α β : Type} [DecidableEq β] (key : α → β)
    {l : List α} {x : α} (hx : x ∈ l) :
    ∃ r ∈ uniqueBy key l, key r = key x :=
  uniqueByFuel_key_mem key l.length l le_rfl x hx

/-! ### Schema Normalizer: French-locale numeric parsing
(`parse_float_fr` in `clean_dvf.py`).  The Polars expression is
`str.replace_all("\s+", "") |> str.replace(",", ".") |> cast(Float64,
strict=False)`: all whitespace removed, only the FIRST comma replaced,
then a strict numeric literal parse that yields null on failure. -/

/-- Remove every whitespace character, the effect of
`str.replace_all (pattern \s+, by empty string)`. -/
def stripWs (s : String) : String :=
  String.mk (s.toList.filter (fun c => !c.isWhitespace))

/-- Replace the first comma by a period (`str.replace` substitutes only the
first match of the pattern). -/
def commaToDotFirst : List Char → List Char
  | [] => []
  | c :: cs => if c = ',' then '.' :: cs else c :: commaToDotFirst cs

/-- Numeric value of a digit character. -/
def digitVal (c : Char) : Nat := c.toNat - '0'.toNat

/-- Numeric value of a digit string. -/
def digitsVal (cs : List Char) : Nat :=
  cs.foldl (fun acc c => 10 * acc + digitVal c) 0

/-- Value of a fractional digit string, scaled below 1. -/
def fracVal (cs : List Char) : ℚ :=
  (digitsVal cs : ℚ) / (10 : ℚ) ^ cs.length

/-- Exponent suffix of a float literal: sign and at least one digit,
consuming the whole remaining input. -/
def expoTail (mant : ℚ) (cs : List Char) : Option ℚ :=
  let p : (Int × List Char) :=
    match cs with
    | '-' :: r => (-1, r)
    | '+' :: r => (1, r)
    | _ => (1, cs)
  let ds := p.2.takeWhile Char.isDigit
  let rest := p.2.dropWhile Char.isDigit
  if ds.isEmpty || !rest.isEmpty then none
  else some (mant * (10 : ℚ) ^ (p.1 * (digitsVal ds : Int)))

/-- Optional exponent marker after the mantissa. -/
def expoPart (mant : ℚ) : List Char → Option ℚ
  | [] => some mant
  | 'e' :: r => expoTail mant r
  | 'E' :: r => expoTail mant r
  | _ => none

/-- Mantissa of a float literal: digits with an optional fractional part,
at least one digit overall. -/
def mantissaPart (sign : ℚ) (cs : List Char) : Option ℚ :=
  let ip := cs.takeWhile Char.isDigit
  let rest := cs.dropWhile Char.isDigit
  match rest with
  | '.' :: r2 =>
    let fp := r2.takeWhile Char.isDigit
    let rest2 := r2.dropWhile Char.isDigit
    if ip.isEmpty && fp.isEmpty then none
    else expoPart (sign * ((digitsVal ip : ℚ) + fracVal fp)) rest2
  | _ =>
    if ip.isEmpty then none
    else expoPart (sign * (digitsVal ip : ℚ)) rest

/-- Strict decimal float literal parse, the model of
`cast(Float64, strict=False)` on a text value: `none` models the null
produced on a non-numeric value.  (The special literals `inf`/`nan` of the
Rust float grammar are omitted; they never denote a DVF monetary or surface
value.) -/
def strictFloatOfString (s : String) : Option ℚ :=
  match s.toList with
  | '-' :: cs => mantissaPart (-1) cs
  | '+' :: cs => mantissaPart 1 cs
  | cs => mantissaPart 1 cs

/-- Source `parse_float_fr`: strip whitespace, first comma to period, strict
cast to float with null on failure; null stays null. -/
def parse_float_fr (v : Option String) : Option ℚ :=
  v.bind (fun s => strictFloatOfString (String.mk (commaToDotFirst (stripWs s).toList)))

/-! ### Data model: a DVF dataframe is a column-name list plus rows whose
cells are optional (null ↦ `none`).  Utf8 cells are `Option String`,
Float64 cells `Option ℚ`. -/

/-- A row of the DVF table.  String fields carry the raw Utf8 columns the
pipeline touches; the ℚ fields are the numeric columns added by
`load_dvf` / later stages (absent ↦ `none`). -/
structure Row where
  identifiant_document : Option String := none
  date_mutation : Option String := none
  valeur_fonciere : Option String := none
  code_departement : Option String := none
  code_commune : Option String := none
  code_postal : Option String := none
  section_cad : Option String := none
  no_plan : Option String := none
  nature_mutation : Option String := none
  type_local : Option String := none
  surface_bati_txt : Option String := none
  surface_terrain_txt : Option String := none
  surface_carrez_txt : Option String := none
  price_eur : Option ℚ := none
  surface_bati : Option ℚ := none
  surface_terrain : Option ℚ := none
  surface_carrez : Option ℚ := none
  mutation_id : Option String := none
  surface_final : Option ℚ := none
  price_m2 : Option ℚ := none
  code_region : Option String := none
  deriving DecidableEq

/-- A dataframe: the declared column names (for the schema checks) plus the
rows. -/
structure DFrame where
  columns : List String
  rows : List Row
  deriving DecidableEq

/-- Utf8 column access by source column name. -/
def getStrCol (r : Row) : String → Option String
  | "Identifiant de document" => r.identifiant_document
  | "Date mutation" => r.date_mutation
  | "Valeur fonciere" => r.valeur_fonciere
  | "Code departement" => r.code_departement
  | "Code commune" => r.code_commune
  | "Code postal" => r.code_postal
  | "Section" => r.section_cad
  | "No plan" => r.no_plan
  | "Nature mutation" => r.nature_mutation
  | "Type local" => r.type_local
  | "Code region" => r.code_region
  | _ => none

/-! ### Configuration constants of `clean_dvf.py`. -/

def RESIDENTIAL_TYPES : List String := ["Maison", "Appartement"]

def MIN_SURFACE_M2 : ℚ := 8

def MIN_PRICE_EUR : ℚ := 10000

/-- Initial fixed sanity bounds for price per m². -/
def PRICE_M2_INITIAL_BOUNDS : ℚ × ℚ := (300, 30000)

/-- Absolute ceiling applied to the robust upper bound (inline `15000.0`
in `compute_price_m2`). -/
def PRICE_M2_ABS_MAX : ℚ := 15000

/-- Failures of the pipeline: a `KeyError` carrying the missing column
names, or the crash of `compute_price_m2` when the stage-1 table is empty
(`.item()` returns null and the arithmetic on it raises). -/
inductive PipeError where
  | missingColumns (missing : List String)
  | emptyPriceTable
  deriving DecidableEq

/-! ### Load (the numeric-cast half of `load_dvf`; the CSV byte decoding
itself is I/O outside the embedding — the input is the all-Utf8 table). -/

/-- Source `load_dvf`, after `read_csv` with an all-Utf8 schema: add the four
parsed numeric columns. -/
def load_dvf (df : DFrame) : DFrame :=
  { columns := df.columns ++ ["price_eur", "surface_bati", "surface_terrain", "surface_carrez"],
    rows := df.rows.map (fun r =>
      { r with
        price_eur := parse_float_fr r.valeur_fonciere,
        surface_bati := parse_float_fr r.surface_bati_txt,
        surface_terrain := parse_float_fr r.surface_terrain_txt,
        surface_carrez := parse_float_fr r.surface_carrez_txt }) }

/-! ### Transaction Identity Resolver (`add_mutation_id`). -/

/-- The fixed ordered column set of the composite mutation key. -/
def MUTATION_ID_COLS : List String :=
  ["Identifiant de document", "Date mutation", "Valeur fonciere",
   "Code departement", "Code commune", "Section", "No plan"]

/-- The `[c for c in cols if c not in df.columns]` check shared by the two
fail-fast schema guards. -/
def missingCols (required : List String) (df : DFrame) : List String :=
  required.filter (fun c => !decide (c ∈ df.columns))

/-- Source `add_mutation_id`: fail fast with the list of missing columns,
otherwise concatenate the key columns (nulls as empty strings) with `|`. -/
def add_mutation_id_result (df : DFrame) : DFrame :=
  { columns := df.columns ++ ["mutation_id"],
    rows := df.rows.map (fun r =>
      { r with mutation_id := some (String.intercalate "|"
          (MUTATION_ID_COLS.map (fun c => (getStrCol r c).getD ""))) }) }

def add_mutation_id (df : DFrame) : Except PipeError DFrame :=
  let missing := missingCols MUTATION_ID_COLS df
  if missing.isEmpty then Except.ok (add_mutation_id_result df)
  else Except.error (PipeError.missingColumns missing)

/-! ### Residential Filter & Surface Selector (`filter_residential_sales`). -/

/-- Columns required by the residential filter. -/
def FILTER_REQUIRED_COLS : List String :=
  ["Nature mutation", "Type local", "price_eur", "surface_bati", "surface_carrez"]

/-- The `when/then/otherwise` surface selection: primary built surface when
non-null and positive, otherwise the Carrez surface. -/
def surfaceFinalExpr (r : Row) : Option ℚ :=
  match r.surface_bati with
  | some b => if 0 < b then some b else r.surface_carrez
  | none => r.surface_carrez

/-- Source `filter_residential_sales`: completed sales (`Vente`) of
residential types, surface selection, then the strict surface and price
thresholds.  A null in a compared column makes the comparison null, which
`filter` drops. -/
def filter_residential_sales (df : DFrame) : Except PipeError DFrame :=
  let missing := missingCols FILTER_REQUIRED_COLS df
  if missing.isEmpty then
    Except.ok
      { columns := df.columns ++ ["surface_final"],
        rows :=
          ((((df.rows.filter (fun r => decide (r.nature_mutation = some "Vente"))).filter
              (fun r => match r.type_local with
                | some t => decide (t ∈ RESIDENTIAL_TYPES)
                | none => false)).map
              (fun r => { r with surface_final := surfaceFinalExpr r })).filter
              (fun r => match r.surface_final with
                | some s => decide (MIN_SURFACE_M2 < s)
                | none => false)).filter
              (fun r => match r.price_eur with
                | some p => decide (MIN_PRICE_EUR < p)
                | none => false) }
  else Except.error (PipeError.missingColumns missing)

/-! ### Main-Local Deduplicator (`select_main_local`). -/

/-- Order of the Polars descending sort on an optional float column with the
default `nulls_last=False`: nulls first, then values in decreasing order. -/
def surfaceDescLe (a b : Option ℚ) : Bool :=
  match a, b with
  | none, _ => true
  | some _, none => false
  | some x, some y => decide (y ≤ x)

/-- Source `select_main_local`: sort by `surface_final` descending, then
`unique(subset=[mutation_id], keep="first")`. -/
def select_main_local (rows : List Row) : List Row :=
  uniqueBy (fun r => r.mutation_id)
    (isort (fun a b => surfaceDescLe a.surface_final b.surface_final) rows)

/-! ### Price Normalizer (`compute_price_m2`). -/

/-- Ascending boolean order on ℚ. -/
def qLe (a b : ℚ) : Bool := decide (a ≤ b)

/-- Polars `quantile(q)` with the default `nearest` interpolation on non-null
values: the ascending-sorted value at index `round(q * (n-1))`, rounding
half away from zero (Rust `f64::round`); null on the empty column. -/
def quantile_nearest (q : ℚ) (vals : List ℚ) : Option ℚ :=
  let s := isort qLe vals
  if s.length = 0 then none
  else some (s.getD (Int.toNat ⌊q * ((s.length : ℚ) - 1) + 1 / 2⌋) 0)

/-- Polars `median` on non-null values: the linear-interpolation quantile at
0.5 — the middle value for odd counts, the mean of the two middle values
for even counts. -/
def median_linear (vals : List ℚ) : Option ℚ :=
  let s := isort qLe vals
  if s.length = 0 then none
  else if s.length % 2 = 1 then some (s.getD (s.length / 2) 0)
  else some ((s.getD (s.length / 2 - 1) 0 + s.getD (s.length / 2) 0) / 2)

/-- The division `price_eur / surface_final`: null when either side is null.
(ℚ division by zero yields 0 where Polars yields ±inf/NaN; both fail the
inclusive 300–30000 filter applied right after, so the stage-1 output is
the same.) -/
def priceM2Expr (r : Row) : Option ℚ :=
  match r.price_eur, r.surface_final with
  | some p, some s => some (p / s)
  | _, _ => none

/-- Step-1 helper of `compute_price_m2`: add the `price_m2` column. -/
def withPriceM2 (rows : List Row) : List Row :=
  rows.map (fun r => { r with price_m2 := priceM2Expr r })

/-- Step 1 of `compute_price_m2`: keep rows whose price per m² lies in the
inclusive initial bounds. -/
def priceStage1 (rows : List Row) : List Row :=
  (withPriceM2 rows).filter (fun r =>
    match r.price_m2 with
    | some v => decide (PRICE_M2_INITIAL_BOUNDS.1 ≤ v ∧ v ≤ PRICE_M2_INITIAL_BOUNDS.2)
    | none => false)

/-- The price-per-m² values of the stage-1 survivors (the non-null column
values seen by the two quantile calls). -/
def priceStage1Vals (rows : List Row) : List ℚ :=
  (priceStage1 rows).filterMap (fun r => r.price_m2)

/-- Source `compute_price_m2`: compute €/m², apply the fixed bounds, then the
robust upper bound `min(p90 + 1.5*(p90 - p10), 15000)` from the stage-1
percentiles.  `none` models the crash on an empty stage-1 table (the
quantile is null and the Python arithmetic on `None` raises). -/
def compute_price_m2 (rows : List Row) : Option (List Row) :=
  match quantile_nearest (1 / 10) (priceStage1Vals rows),
        quantile_nearest (9 / 10) (priceStage1Vals rows) with
  | some p10, some p90 =>
    let upper_bound := min (p90 + 3 / 2 * (p90 - p10)) PRICE_M2_ABS_MAX
    some ((priceStage1 rows).filter (fun r =>
      match r.price_m2 with
      | some v => decide (v ≤ upper_bound)
      | none => false))
  | _, _ => none

/-- The robust upper bound computed by `compute_price_m2`, exposed for the
bound statements. -/
def robustUpperBound (rows : List Row) : Option ℚ :=
  match quantile_nearest (1 / 10) (priceStage1Vals rows),
        quantile_nearest (9 / 10) (priceStage1Vals rows) with
  | some p10, some p90 => some (min (p90 + 3 / 2 * (p90 - p10)) PRICE_M2_ABS_MAX)
  | _, _ => none

/-! ### Public API (`build_clean_transactions`). -/

/-- Source `build_clean_transactions`: load, identity, residential filter,
deduplicate, price normalize. -/
def build_clean_transactions (df : DFrame) : Except PipeError (List Row) := do
  let df1 ← add_mutation_id (load_dvf df)
  let df2 ← filter_residential_sales df1
  match compute_price_m2 (select_main_local df2.rows) with
  | some out => Except.ok out
  | none => Except.error PipeError.emptyPriceTable

/-! ### Multi-Level Aggregator (`aggregate.py`). -/

/-- Per-level minimum sales thresholds (`MIN_SALES_BY_LEVEL`). -/
def MIN_SALES_BY_LEVEL : List (String × Nat) :=
  [("country", 100), ("region", 100), ("department", 50),
   ("commune", 10), ("postcode", 10), ("iris", 10)]

def MIN_SALES_DEFAULT : Nat := 10

/-- Byte-lexicographic order on strings (the Polars Utf8 ordering used by
`sort` and `max`). -/
def charListLe : List Char → List Char → Bool
  | [], _ => true
  | _ :: _, [] => false
  | a :: as, b :: bs => if a = b then charListLe as bs else decide (a < b)

def strLeB (a b : String) : Bool := charListLe a.toList b.toList

/-- Sort order on a nullable Utf8 column: nulls first (Polars default). -/
def optStrLeB : Option String → Option String → Bool
  | none, _ => true
  | some _, none => false
  | some a, some b => strLeB a b

/-- Lexicographic order on a tuple of nullable Utf8 sort keys. -/
def keyListLeB : List (Option String) → List (Option String) → Bool
  | [], _ => true
  | _ :: _, [] => false
  | a :: as, b :: bs => if a = b then keyListLeB as bs else optStrLeB a b

/-- One row of a level summary: the grouping-key values, the property type,
and the aggregated metrics of `aggregate_price`. -/
structure SummaRow where
  key : List (Option String)
  type_local : Option String
  n_sales : Nat
  median_price_m2 : Option ℚ
  p25_price_m2 : Option ℚ
  p75_price_m2 : Option ℚ
  last_tx_date : Option String
  deriving DecidableEq

/-- The final `sort(group_cols + ["Type local"])` order on summary rows. -/
def summaryLe (a b : SummaRow) : Bool :=
  if a.key = b.key then optStrLeB a.type_local b.type_local
  else keyListLeB a.key b.key

/-- The grouping-key values of a row for the given grouping columns. -/
def groupKey (group_cols : List String) (r : Row) : List (Option String) :=
  group_cols.map (getStrCol r)

/-- Maximum of the non-null values of a Utf8 column (`max`), null when all
values are null. -/
def maxStrOpt (l : List String) : Option String :=
  l.foldr (fun s acc =>
    match acc with
    | none => some s
    | some t => if strLeB s t then some t else some s) none

/-- The member rows of the group `(grouping-key values, property type)`. -/
def groupRows (group_cols : List String) (rows : List Row)
    (k : List (Option String) × Option String) : List Row :=
  rows.filter (fun r => decide (groupKey group_cols r = k.1 ∧ r.type_local = k.2))

/-- The aggregated summary row of one group: `pl.len`, the median and the
0.25/0.75 quantiles of `price_m2` (nulls ignored), and the latest
`Date mutation`. -/
def mkSummary (group_cols : List String) (rows : List Row)
    (k : List (Option String) × Option String) : SummaRow :=
  let g := groupRows group_cols rows k
  let vals := g.filterMap (fun r => r.price_m2)
  { key := k.1, type_local := k.2, n_sales := g.length,
    median_price_m2 := median_linear vals,
    p25_price_m2 := quantile_nearest (1 / 4) vals,
    p75_price_m2 := quantile_nearest (3 / 4) vals,
    last_tx_date := maxStrOpt (g.filterMap (fun r => r.date_mutation)) }

/-- The distinct `(grouping-key values, property type)` groups, in
first-occurrence order. -/
def groupKeys (group_cols : List String) (rows : List Row) :
    List (List (Option String) × Option String) :=
  uniqueBy (fun p => p) (rows.map (fun r => (groupKey group_cols r, r.type_local)))

/-- Source `aggregate_price`: group by the grouping columns plus
`Type local`, aggregate, drop groups under `min_sales`, sort. -/
def aggregate_price (rows : List Row) (group_cols : List String)
    (min_sales : Nat) : List SummaRow :=
  isort summaryLe
    (((groupKeys group_cols rows).map (mkSummary group_cols rows)).filter
      (fun s => decide (min_sales ≤ s.n_sales)))

/-- The department-to-region mapping resource: either the key-value pairs
extracted from the boundary geometry file, or unavailable (the file cannot
be read, or the region column is absent), with the cause. -/
inductive RegionMapping where
  | available (pairs : List (String × String))
  | unavailable (reason : String)

/-- Dictionary lookup in the department-to-region pairs. -/
def lookupMap (pairs : List (String × String)) (k : String) : Option String :=
  match pairs.find? (fun p => decide (p.1 = k)) with
  | some p => some p.2
  | none => none

/-- Source `add_region_code`: with an available mapping, `replace` the
department code through the dictionary with `default=None`; when the
mapping is unavailable, log warnings and set the whole `Code region`
column to null.  The second component collects the logged warnings — the
function is total, the degraded path never aborts. -/
def add_region_code (mapping : RegionMapping) (rows : List Row) :
    List Row × List String :=
  match mapping with
  | RegionMapping.available pairs =>
    (rows.map (fun r =>
      { r with code_region := r.code_departement.bind (lookupMap pairs) }), [])
  | RegionMapping.unavailable reason =>
    (rows.map (fun r => { r with code_region := none }),
     ["Could not load department-region mapping: " ++ reason,
      "Skipping region code assignment"])

/-! ### Persistence model: writing the clean table to a parquet file and
reading it back preserves the table exactly. -/

structure ParquetFile where
  saved_rows : List Row
  deriving DecidableEq

def write_parquet (rows : List Row) : ParquetFile := ⟨rows⟩

def read_parquet (f : ParquetFile) : List Row := f.saved_rows

/-! ## Theorems -/

/-- Membership in the missing-column diagnostic list. -/
theorem mem_missingCols (required : List String) (df : DFrame) (c : String) :
    c ∈ missingCols required df ↔ c ∈ required ∧ c ∉ df.columns := by
  simp [missingCols, List.mem_filter]

/-- C5: `parse_float_fr` strips whitespace, converts the comma decimal
separator to a period, and attempts a strict conversion, yielding null on
failure and never an error; `"1 234,56"` parses to `1234.56` and `"12C"`
parses to null. -/
theorem parse_float_fr_spec :
    (∀ s : String, parse_float_fr (some s) =
      strictFloatOfString (String.mk (commaToDotFirst (stripWs s).toList))) ∧
    parse_float_fr (some "1 234,56") = some (123456 / 100 : ℚ) ∧
    parse_float_fr (some "12C") = none ∧
    parse_float_fr none = none := by
  refine ⟨fun s => rfl, by with_unfolding_all rfl, by with_unfolding_all rfl, rfl⟩

/-- C6: when any of the seven source columns of the mutation key is absent,
`add_mutation_id` fails with a `KeyError` whose payload is exactly the
missing columns; when all are present it returns normally. -/
theorem add_mutation_id_schema (df : DFrame) :
    ((∃ c ∈ MUTATION_ID_COLS, c ∉ df.columns) →
      add_mutation_id df =
        Except.error (PipeError.missingColumns (missingCols MUTATION_ID_COLS df)) ∧
      missingCols MUTATION_ID_COLS df ≠ [] ∧
      (∀ c, c ∈ missingCols MUTATION_ID_COLS df ↔
        c ∈ MUTATION_ID_COLS ∧ c ∉ df.columns)) ∧
    ((∀ c ∈ MUTATION_ID_COLS, c ∈ df.columns) →
      ∃ df2, add_mutation_id df = Except.ok df2) := by
  constructor
  · rintro ⟨c, hc, hnc⟩
    have hne : missingCols MUTATION_ID_COLS df ≠ [] :=
      List.ne_nil_of_mem ((mem_missingCols _ df c).mpr ⟨hc, hnc⟩)
    have hempty : (missingCols MUTATION_ID_COLS df).isEmpty = false := by
      cases h : missingCols MUTATION_ID_COLS df with
      | nil => exact absurd h hne
      | cons a l => rfl
    refine ⟨?_, hne, fun c => mem_missingCols _ df c⟩
    simp [add_mutation_id, hempty]
  · intro hall
    have hnil : missingCols MUTATION_ID_COLS df = [] := by
      rcases h : missingCols MUTATION_ID_COLS df with _ | ⟨a, l⟩
      · rfl
      · have ha : a ∈ missingCols MUTATION_ID_COLS df := by
          rw [h]; exact List.mem_cons_self a l
        rcases (mem_missingCols _ df a).mp ha with ⟨h1, h2⟩
        exact absurd (hall a h1) h2
    exact ⟨add_mutation_id_result df, by simp [add_mutation_id, hnil]⟩

/-- Witness for C6 at two concrete tables: the empty-schema table fails with
all seven columns named; a table carrying the seven columns succeeds. -/
theorem add_mutation_id_schema_witness :
    add_mutation_id ⟨[], []⟩ =
      Except.error (PipeError.missingColumns MUTATION_ID_COLS) ∧
    ∃ df2, add_mutation_id ⟨MUTATION_ID_COLS, []⟩ = Except.ok df2 := by
  constructor
  · have h := (add_mutation_id_schema ⟨[], []⟩).1
      ⟨"Date mutation", by decide, by simp⟩
    have he : missingCols MUTATION_ID_COLS ⟨[], []⟩ = MUTATION_ID_COLS := by decide
    rw [h.1, he]
  · exact (add_mutation_id_schema ⟨MUTATION_ID_COLS, []⟩).2 (fun c hc => hc)

/-- C4: the pipeline is a deterministic function of its input, and
aggregating a clean table written to and read back from parquet gives the
same summaries as aggregating the freshly computed clean table. -/
theorem pipeline_deterministic (df : DFrame) :
    build_clean_transactions df = build_clean_transactions df ∧
    (∀ clean, build_clean_transactions df = Except.ok clean →
      ∀ group_cols min_sales,
        aggregate_price (read_parquet (write_parquet clean)) group_cols min_sales =
          aggregate_price clean group_cols min_sales) :=
  ⟨rfl, fun _ _ _ _ => rfl⟩

/-- A raw table with one residential sale that survives every stage. -/
def wDf : DFrame :=
  { columns := MUTATION_ID_COLS ++ ["Nature mutation", "Type local"],
    rows := [{ identifiant_document := some "1", date_mutation := some "2025-01-15",
               valeur_fonciere := some "200000", code_departement := some "75",
               code_commune := some "101", section_cad := some "AB",
               no_plan := some "42", nature_mutation := some "Vente",
               type_local := some "Appartement", surface_bati_txt := some "50" }] }

/-- The clean transaction computed from `wDf`. -/
def wCleanRow : Row :=
  { identifiant_document := some "1", date_mutation := some "2025-01-15",
    valeur_fonciere := some "200000", code_departement := some "75",
    code_commune := some "101", section_cad := some "AB", no_plan := some "42",
    nature_mutation := some "Vente", type_local := some "Appartement",
    surface_bati_txt := some "50", price_eur := some 200000,
    surface_bati := some 50,
    mutation_id := some "1|2025-01-15|200000|75|101|AB|42",
    surface_final := some 50, price_m2 := some 4000 }

/-- Witness for C4: the concrete pipeline run succeeds and the round-trip
aggregation equality holds on its output. -/
theorem pipeline_deterministic_witness :
    build_clean_transactions wDf = Except.ok [wCleanRow] ∧
    aggregate_price (read_parquet (write_parquet [wCleanRow])) ["Code commune"] 1 =
      aggregate_price [wCleanRow] ["Code commune"] 1 := by
  have h : build_clean_transactions wDf = Except.ok [wCleanRow] := by
    with_unfolding_all rfl
  exact ⟨h, (pipeline_deterministic wDf).2 [wCleanRow] h ["Code commune"] 1⟩

/-- Characterization of the rows surviving `filter_residential_sales`: a
completed sale of a residential type, a selected surface strictly above the
minimum, and a price strictly above the minimum. -/
theorem filter_residential_rows_char (df df2 : DFrame)
    (h : filter_residential_sales df = Except.ok df2) :
    ∀ r ∈ df2.rows,
      r.nature_mutation = some "Vente" ∧
      (∃ t, r.type_local = some t ∧ t ∈ RESIDENTIAL_TYPES) ∧
      (∃ s, r.surface_final = some s ∧ MIN_SURFACE_M2 < s) ∧
      (∃ p, r.price_eur = some p ∧ MIN_PRICE_EUR < p) := by
  intro r hr
  rw [filter_residential_sales] at h
  by_cases hm : (missingCols FILTER_REQUIRED_COLS df).isEmpty = true
  · rw [if_pos hm] at h
    injection h with h
    rw [← h] at hr
    simp only at hr
    rcases List.mem_filter.mp hr with ⟨hr4, hp⟩
    rcases List.mem_filter.mp hr4 with ⟨hr3, hs⟩
    rcases List.mem_map.mp hr3 with ⟨r0, hr2, heq⟩
    rcases List.mem_filter.mp hr2 with ⟨hr1, ht⟩
    rcases List.mem_filter.mp hr1 with ⟨_, hn⟩
    have hnat : r.nature_mutation = r0.nature_mutation := by rw [← heq]
    have htyp : r.type_local = r0.type_local := by rw [← heq]
    refine ⟨?_, ?_, ?_, ?_⟩
    · rw [hnat]; exact of_decide_eq_true hn
    · rcases htl : r0.type_local with _ | t
      · rw [htl] at ht; exact absurd ht (by simp)
      · rw [htl] at ht
        exact ⟨t, by rw [htyp, htl], of_decide_eq_true ht⟩
    · rcases hsf : r.surface_final with _ | s
      · rw [hsf] at hs; exact absurd hs (by simp)
      · rw [hsf] at hs
        exact ⟨s, rfl, of_decide_eq_true hs⟩
    · rcases hpe : r.price_eur with _ | p
      · rw [hpe] at hp; exact absurd hp (by simp)
      · rw [hpe] at hp
        exact ⟨p, rfl, of_decide_eq_true hp⟩
  · rw [if_neg hm] at h
    exact absurd h (by simp)

/-- C7: every row surviving `filter_residential_sales` is a completed sale
(`Vente`) of type `Maison` or `Appartement`, with `surface_final` strictly
above the 8 m² minimum and a price strictly above the 10,000 € minimum; in
particular no surviving row has a declared price of 5,000. -/
theorem filter_residential_sales_spec (df df2 : DFrame)
    (h : filter_residential_sales df = Except.ok df2) :
    ∀ r ∈ df2.rows,
      r.nature_mutation = some "Vente" ∧
      (∃ t, r.type_local = some t ∧ t ∈ RESIDENTIAL_TYPES) ∧
      (∃ s, r.surface_final = some s ∧ ¬ s ≤ MIN_SURFACE_M2) ∧
      (∃ p, r.price_eur = some p ∧ ¬ p ≤ MIN_PRICE_EUR) ∧
      r.price_eur ≠ some 5000 := by
  intro r hr
  obtain ⟨h1, h2, ⟨s, hs, hs8⟩, ⟨p, hp, hp10⟩⟩ :=
    filter_residential_rows_char df df2 h r hr
  refine ⟨h1, h2, ⟨s, hs, not_le.mpr hs8⟩, ⟨p, hp, not_le.mpr hp10⟩, ?_⟩
  intro hbad
  rw [hp] at hbad
  injection hbad with hbad
  rw [hbad] at hp10
  norm_num [MIN_PRICE_EUR] at hp10

/-- A two-row table for the filter witnesses: one qualifying sale and one
sale priced 5,000 (at or below the minimum). -/
def wfRowPass : Row :=
  { nature_mutation := some "Vente", type_local := some "Maison",
    price_eur := some 150000, surface_bati := some 40 }

def wfRowCheap : Row :=
  { nature_mutation := some "Vente", type_local := some "Maison",
    price_eur := some 5000, surface_bati := some 40 }

def wFilterDf : DFrame :=
  { columns := FILTER_REQUIRED_COLS, rows := [wfRowPass, wfRowCheap] }

def wfOutRow : Row := { wfRowPass with surface_final := some 40 }

/-- Witness for C7: on the concrete table the 5,000 € row is dropped, the
qualifying row survives, and the theorem's facts hold of it. -/
theorem filter_residential_sales_spec_witness :
    filter_residential_sales wFilterDf =
      Except.ok ⟨FILTER_REQUIRED_COLS ++ ["surface_final"], [wfOutRow]⟩ ∧
    wfOutRow.price_eur ≠ some 5000 ∧
    wfOutRow.nature_mutation = some "Vente" := by
  have h : filter_residential_sales wFilterDf =
      Except.ok ⟨FILTER_REQUIRED_COLS ++ ["surface_final"], [wfOutRow]⟩ := by
    with_unfolding_all rfl
  have h2 := filter_residential_sales_spec wFilterDf
    ⟨FILTER_REQUIRED_COLS ++ ["surface_final"], [wfOutRow]⟩ h wfOutRow (by simp)
  exact ⟨h, h2.2.2.2.2, h2.1⟩

/-- C10: rows reaching the price computation (after the residential filter
and deduplication) always have a non-null `surface_final` strictly above
the 8 m² minimum — in particular non-zero — so `price_eur / surface_final`
is never a division by zero or null, and every computed `price_m2` is
non-null and positive before any bound filtering. -/
theorem price_division_safe (df df2 : DFrame)
    (h : filter_residential_sales df = Except.ok df2) :
    (∀ r ∈ select_main_local df2.rows,
      ∃ s, r.surface_final = some s ∧ MIN_SURFACE_M2 < s ∧ s ≠ 0) ∧
    (∀ r ∈ withPriceM2 (select_main_local df2.rows),
      ∃ v, r.price_m2 = some v ∧ 0 < v) := by
  have hsub : ∀ r ∈ select_main_local df2.rows, r ∈ df2.rows := by
    intro r hr
    exact (mem_isort _).mp (uniqueBy_subset _ hr)
  have hmin : (0 : ℚ) < MIN_SURFACE_M2 := by norm_num [MIN_SURFACE_M2]
  have hminp : (0 : ℚ) < MIN_PRICE_EUR := by norm_num [MIN_PRICE_EUR]
  constructor
  · intro r hr
    obtain ⟨_, _, ⟨s, hs, hs8⟩, _⟩ :=
      filter_residential_rows_char df df2 h r (hsub r hr)
    exact ⟨s, hs, hs8, ne_of_gt (lt_trans hmin hs8)⟩
  · intro r hr
    rcases List.mem_map.mp hr with ⟨r0, hr0, heq⟩
    obtain ⟨_, _, ⟨s, hs, hs8⟩, ⟨p, hp, hp10⟩⟩ :=
      filter_residential_rows_char df df2 h r0 (hsub r0 hr0)
    have hv : r.price_m2 = some (p / s) := by
      rw [← heq]
      simp only [priceM2Expr, hp, hs]
    exact ⟨p / s, hv,
      div_pos (lt_trans hminp hp10) (lt_trans hmin hs8)⟩

/-- Witness for C10: the concrete surviving row has surface 40 (non-zero,
above the minimum) and its computed price per m² is positive. -/
theorem price_division_safe_witness :
    (∃ s, wfOutRow.surface_final = some s ∧ MIN_SURFACE_M2 < s ∧ s ≠ 0) ∧
    (∃ v, ({ wfOutRow with price_m2 := priceM2Expr wfOutRow } : Row).price_m2 =
        some v ∧ 0 < v) := by
  have h : filter_residential_sales wFilterDf =
      Except.ok ⟨FILTER_REQUIRED_COLS ++ ["surface_final"], [wfOutRow]⟩ := by
    with_unfolding_all rfl
  have hsel : select_main_local [wfOutRow] = [wfOutRow] := by
    with_unfolding_all rfl
  have hmain := price_division_safe wFilterDf
    ⟨FILTER_REQUIRED_COLS ++ ["surface_final"], [wfOutRow]⟩ h
  constructor
  · exact hmain.1 wfOutRow (by rw [show (⟨FILTER_REQUIRED_COLS ++ ["surface_final"],
      [wfOutRow]⟩ : DFrame).rows = [wfOutRow] from rfl, hsel]; simp)
  · exact hmain.2 _ (by rw [show (⟨FILTER_REQUIRED_COLS ++ ["surface_final"],
      [wfOutRow]⟩ : DFrame).rows = [wfOutRow] from rfl, hsel]; simp [withPriceM2])

/-! ### Order properties of the descending nulls-first sort key. -/

theorem surfaceDescLe_refl (a : Option ℚ) : surfaceDescLe a a = true := by
  cases a with
  | none => rfl
  | some x => simp [surfaceDescLe]

theorem surfaceDescLe_trans (a b c : Option ℚ) :
    surfaceDescLe a b = true → surfaceDescLe b c = true →
      surfaceDescLe a c = true := by
  intro h1 h2
  cases a with
  | none => rfl
  | some x =>
    cases b with
    | none => exact absurd h1 (by simp [surfaceDescLe])
    | some y =>
      cases c with
      | none => exact absurd h2 (by simp [surfaceDescLe])
      | some z =>
        simp only [surfaceDescLe, decide_eq_true_eq] at h1 h2 ⊢
        exact le_trans h2 h1

theorem surfaceDescLe_total (a b : Option ℚ) :
    surfaceDescLe a b = true ∨ surfaceDescLe b a = true := by
  cases a with
  | none => exact Or.inl rfl
  | some x =>
    cases b with
    | none => exact Or.inr rfl
    | some y =>
      simp only [surfaceDescLe, decide_eq_true_eq]
      exact le_total y x

/-! ### Counting rows by key in a key-distinct list. -/

theorem length_filter_key_le_one {α β : Type} [DecidableEq β] (key : α → β)
    (k : β) :
    ∀ l : List α, l.Pairwise (fun a b => key a ≠ key b) →
      (l.filter (fun r => decide (key r = k))).length ≤ 1 := by
  intro l hl
  induction l with
  | nil => simp
  | cons a l ih =>
    rcases hl with _ | ⟨ha, hl⟩
    by_cases hk : key a = k
    · rw [List.filter_cons_of_pos (by simpa using hk)]
      have hnil : l.filter (fun r => decide (key r = k)) = [] := by
        rw [List.filter_eq_nil]
        intro b hb
        simp only [decide_eq_true_eq]
        intro hkb
        exact ha b hb (hk ▸ hkb.symm ▸ rfl)
      simp [hnil]
    · rw [List.filter_cons_of_neg (by simpa using hk)]
      exact ih hl

theorem length_filter_key_eq_one {α β : Type} [DecidableEq β] (key : α → β)
    (k : β) {l : List α} (hl : l.Pairwise (fun a b => key a ≠ key b))
    (hmem : ∃ r ∈ l, key r = k) :
    (l.filter (fun r => decide (key r = k))).length = 1 := by
  obtain ⟨r, hr, hrk⟩ := hmem
  have h1 : r ∈ l.filter (fun r => decide (key r = k)) :=
    List.mem_filter.mpr ⟨hr, by simpa using hrk⟩
  have hpos : 0 < (l.filter (fun r => decide (key r = k))).length :=
    List.length_pos.mpr (List.ne_nil_of_mem h1)
  have hle := length_filter_key_le_one key k l hl
  omega

/-- C3 (amended): `select_main_local` keeps exactly one row per distinct
`mutation_id` of the input — the first occurrence after the stable
descending sort on `surface_final` in which missing surfaces order before
all numeric values; the kept row's surface is maximal for that order, so
whenever the kept row and another row of the same key both carry numeric
surfaces, the kept row's surface is the larger. -/
theorem select_main_local_amended (rows : List Row) :
    (∀ k, k ∈ rows.map (fun r => r.mutation_id) →
      ((select_main_local rows).filter
        (fun r => decide (r.mutation_id = k))).length = 1) ∧
    (∀ k, k ∉ rows.map (fun r => r.mutation_id) →
      ((select_main_local rows).filter
        (fun r => decide (r.mutation_id = k))).length = 0) ∧
    (∀ r ∈ select_main_local rows, ∀ x ∈ rows,
      x.mutation_id = r.mutation_id →
      surfaceDescLe r.surface_final x.surface_final = true) ∧
    (∀ r ∈ select_main_local rows, ∀ x ∈ rows,
      x.mutation_id = r.mutation_id →
      ∀ a b, r.surface_final = some a → x.surface_final = some b → b ≤ a) := by
  have htrans : ∀ a b c : Row,
      surfaceDescLe a.surface_final b.surface_final = true →
      surfaceDescLe b.surface_final c.surface_final = true →
      surfaceDescLe a.surface_final c.surface_final = true :=
    fun a b c => surfaceDescLe_trans _ _ _
  have htotal : ∀ a b : Row,
      surfaceDescLe a.surface_final b.surface_final = true ∨
      surfaceDescLe b.surface_final a.surface_final = true :=
    fun a b => surfaceDescLe_total _ _
  have hpw := pairwise_isort htrans htotal rows
  have hdist := uniqueBy_keys_distinct (fun r : Row => r.mutation_id)
    (isort (fun a b => surfaceDescLe a.surface_final b.surface_final) rows)
  have hpart3 : ∀ r ∈ select_main_local rows, ∀ x ∈ rows,
      x.mutation_id = r.mutation_id →
      surfaceDescLe r.surface_final x.surface_final = true := by
    intro r hr x hx hk
    have hx' : x ∈ isort (fun a b => surfaceDescLe a.surface_final b.surface_final) rows :=
      (mem_isort _).mpr hx
    rcases uniqueBy_first (fun r : Row => r.mutation_id) hpw r hr x hx' hk with
      heq | hle
    · rw [heq]; exact surfaceDescLe_refl _
    · exact hle
  refine ⟨?_, ?_, hpart3, ?_⟩
  · intro k hk
    rcases List.mem_map.mp hk with ⟨x, hx, hxk⟩
    have hx' : x ∈ isort (fun a b => surfaceDescLe a.surface_final b.surface_final) rows :=
      (mem_isort _).mpr hx
    obtain ⟨r, hr, hrk⟩ :=
      uniqueBy_key_mem (fun r : Row => r.mutation_id) hx'
    exact length_filter_key_eq_one (fun r : Row => r.mutation_id) k hdist
      ⟨r, hr, by show r.mutation_id = k; rw [hrk, hxk]⟩
  · intro k hk
    rw [List.length_eq_zero, List.filter_eq_nil]
    intro r hr
    simp only [decide_eq_true_eq]
    intro hrk
    apply hk
    refine List.mem_map.mpr ⟨r, ?_, hrk⟩
    exact (mem_isort _).mp (uniqueBy_subset _ hr)
  · intro r hr x hx hk a b ha hb
    have hle := hpart3 r hr x hx hk
    rw [ha, hb] at hle
    simpa [surfaceDescLe] using hle

/-- A key group with a null surface and a 50 m² surface. -/
def cxRowNull : Row := { mutation_id := some "m" }

def cxRowBig : Row := { mutation_id := some "m", surface_final := some 50 }

/-- Counterexample for C3 as stated: the descending sort places the
null-surface row first (Polars default `nulls_last=False`), so
`select_main_local` keeps the null-surface row even though a row with the
same key carries the strictly larger surface 50 — not "the row with the
largest `surface_final`". -/
theorem select_main_local_counterexample :
    select_main_local [cxRowNull, cxRowBig] = [cxRowNull] ∧
    cxRowNull.surface_final = none ∧
    cxRowBig.surface_final = some 50 ∧
    cxRowBig.mutation_id = cxRowNull.mutation_id :=
  ⟨by with_unfolding_all rfl, rfl, rfl, rfl⟩

/-- A key group with two numeric surfaces, 60 and 50. -/
def mRowBig : Row := { mutation_id := some "m", surface_final := some 60 }

def mRowSmall : Row := { mutation_id := some "m", surface_final := some 50 }

/-- Witness for C3 (amended) at a concrete table with non-null surfaces:
exactly one row is kept for the key, and its surface dominates its group. -/
theorem select_main_local_amended_witness :
    ((select_main_local [mRowBig, mRowSmall]).filter
      (fun r => decide (r.mutation_id = some "m"))).length = 1 ∧
    (50 : ℚ) ≤ 60 := by
  have hsel : select_main_local [mRowBig, mRowSmall] = [mRowBig] := by
    with_unfolding_all rfl
  refine ⟨(select_main_local_amended [mRowBig, mRowSmall]).1 (some "m")
    (by simp [mRowBig]), ?_⟩
  exact (select_main_local_amended [mRowBig, mRowSmall]).2.2.2 mRowBig
    (by rw [hsel]; simp) mRowSmall (by simp) rfl 60 50 rfl rfl

/-- C1: every row of the table produced by `compute_price_m2` carries a
non-null price per m² lying within the closed interval from the configured
low bound 300 up to `min(p90 + 1.5*(p90 - p10), 15000)`, the percentiles
taken over the stage-1 survivors; in particular within [300, 15000]. -/
theorem compute_price_m2_bounds (rows out : List Row)
    (h : compute_price_m2 rows = some out) :
    ∃ p10 p90,
      quantile_nearest (1 / 10) (priceStage1Vals rows) = some p10 ∧
      quantile_nearest (9 / 10) (priceStage1Vals rows) = some p90 ∧
      robustUpperBound rows =
        some (min (p90 + 3 / 2 * (p90 - p10)) PRICE_M2_ABS_MAX) ∧
      ∀ r ∈ out, ∃ v, r.price_m2 = some v ∧
        PRICE_M2_INITIAL_BOUNDS.1 ≤ v ∧
        v ≤ min (p90 + 3 / 2 * (p90 - p10)) PRICE_M2_ABS_MAX ∧
        (300 : ℚ) ≤ v ∧ v ≤ 15000 := by
  rcases hq10 : quantile_nearest (1 / 10) (priceStage1Vals rows) with _ | p10
  · rw [compute_price_m2, hq10] at h
    exact absurd h (by simp)
  rcases hq90 : quantile_nearest (9 / 10) (priceStage1Vals rows) with _ | p90
  · rw [compute_price_m2, hq10, hq90] at h
    exact absurd h (by simp)
  rw [compute_price_m2, hq10, hq90] at h
  injection h with h
  refine ⟨p10, p90, rfl, rfl, by rw [robustUpperBound, hq10, hq90], ?_⟩
  intro r hr
  rw [← h] at hr
  rcases List.mem_filter.mp hr with ⟨hr1, hub⟩
  rcases List.mem_filter.mp hr1 with ⟨_, hbounds⟩
  rcases hpm : r.price_m2 with _ | v
  · rw [hpm] at hub
    exact absurd hub (by simp)
  · rw [hpm] at hub hbounds
    have hub' := of_decide_eq_true hub
    have hb' := of_decide_eq_true hbounds
    refine ⟨v, rfl, hb'.1, hub', hb'.1, ?_⟩
    exact le_trans hub' (min_le_right _ _)

/-- A single transaction priced at 4,000 €/m². -/
def pRow : Row := { price_eur := some 200000, surface_final := some 50 }

def pOutRow : Row := { pRow with price_m2 := some 4000 }

/-- Witness for C1 at the concrete one-row table: the computation succeeds
and the output row's price per m² obeys the default bounds. -/
theorem compute_price_m2_bounds_witness :
    compute_price_m2 [pRow] = some [pOutRow] ∧
    (300 : ℚ) ≤ 4000 ∧ (4000 : ℚ) ≤ 15000 := by
  have h : compute_price_m2 [pRow] = some [pOutRow] := by
    with_unfolding_all rfl
  obtain ⟨p10, p90, h10, h90, hub, hall⟩ :=
    compute_price_m2_bounds [pRow] [pOutRow] h
  obtain ⟨v, hv, _, _, h300, h15⟩ := hall pOutRow (by simp)
  have hv4 : (4000 : ℚ) = v := Option.some.inj hv
  exact ⟨h, hv4 ▸ h300, hv4 ▸ h15⟩

/-- Every summary row of `aggregate_price` comes from one grouping key, with
its sale count equal to the size of that group. -/
theorem mem_aggregate_price {rows : List Row} {group_cols : List String}
    {min_sales : Nat} {s : SummaRow}
    (hs : s ∈ aggregate_price rows group_cols min_sales) :
    ∃ k ∈ groupKeys group_cols rows,
      s = mkSummary group_cols rows k ∧ min_sales ≤ s.n_sales := by
  rw [aggregate_price] at hs
  have hs1 := (mem_isort _).mp hs
  rcases List.mem_filter.mp hs1 with ⟨hs2, hmin⟩
  rcases List.mem_map.mp hs2 with ⟨k, hk, heq⟩
  exact ⟨k, hk, heq.symm, of_decide_eq_true hmin⟩

/-- C2: every row of an `aggregate_price` summary has a sale count at least
the minimum-sample threshold, and a (geography, property type) group whose
member count is below the threshold is absent from the output entirely. -/
theorem aggregate_price_min_sales (rows : List Row) (group_cols : List String)
    (min_sales : Nat) :
    (∀ s ∈ aggregate_price rows group_cols min_sales,
      min_sales ≤ s.n_sales) ∧
    (∀ key tl, (groupRows group_cols rows (key, tl)).length < min_sales →
      ∀ s ∈ aggregate_price rows group_cols min_sales,
        ¬(s.key = key ∧ s.type_local = tl)) := by
  constructor
  · intro s hs
    obtain ⟨k, _, _, hmin⟩ := mem_aggregate_price hs
    exact hmin
  · rintro key tl hlt s hs ⟨hk, ht⟩
    obtain ⟨k, hkmem, heq, hmin⟩ := mem_aggregate_price hs
    have hkey : k.1 = key := by rw [heq] at hk; exact hk
    have htl : k.2 = tl := by rw [heq] at ht; exact ht
    have hns : s.n_sales = (groupRows group_cols rows k).length := by
      rw [heq]; rfl
    have hke : k = (key, tl) := by
      cases k; simp_all
    rw [hns, hke] at hmin
    omega

/-- A commune group with a single qualifying sale. -/
def gRowSingle : Row :=
  { code_commune := some "101", type_local := some "Maison",
    price_m2 := some 2500, date_mutation := some "2025-01-01" }

/-- Witness for C2: a commune group with 1 sale against a threshold of 10 is
absent from the summary output entirely. -/
theorem aggregate_price_min_sales_witness :
    (groupRows ["Code commune"] [gRowSingle] ([some "101"], some "Maison")).length < 10 ∧
    (∀ s ∈ aggregate_price [gRowSingle] ["Code commune"] 10,
      ¬(s.key = [some "101"] ∧ s.type_local = some "Maison")) ∧
    aggregate_price [gRowSingle] ["Code commune"] 10 = [] := by
  have hlen : (groupRows ["Code commune"] [gRowSingle]
      ([some "101"], some "Maison")).length = 1 := by
    with_unfolding_all rfl
  have hlt : (groupRows ["Code commune"] [gRowSingle]
      ([some "101"], some "Maison")).length < 10 := by omega
  exact ⟨hlt,
    (aggregate_price_min_sales [gRowSingle] ["Code commune"] 10).2
      [some "101"] (some "Maison") hlt,
    by with_unfolding_all rfl⟩

/-- The three-transaction commune scenario of the spec. -/
def aggRow3 (pm : ℚ) (d : String) : Row :=
  { code_departement := some "75", code_commune := some "101",
    type_local := some "Appartement", date_mutation := some d,
    price_m2 := some pm }

def threeParisRows : List Row :=
  [aggRow3 6000 "2025-01-15", aggRow3 7000 "2025-02-20", aggRow3 8000 "2025-03-10"]

/-- The summary the code actually produces for the scenario. -/
def parisSummary : SummaRow :=
  { key := [some "101"], type_local := some "Appartement", n_sales := 3,
    median_price_m2 := some 7000, p25_price_m2 := some 7000,
    p75_price_m2 := some 8000, last_tx_date := some "2025-03-10" }

/-- Counterexample for C9 as stated: on the three sales at 6000/7000/8000 the
code's `nearest`-interpolation quantiles give p25 = 7000 (index
round(0.25·2) = 1 of the sorted values) and p75 = 8000, not ≈6500/≈7500. -/
theorem aggregate_scenario_counterexample :
    aggregate_price threeParisRows ["Code commune"] 2 = [parisSummary] ∧
    parisSummary.n_sales = 3 ∧
    parisSummary.median_price_m2 = some 7000 ∧
    parisSummary.p25_price_m2 = some 7000 ∧
    parisSummary.p25_price_m2 ≠ some 6500 ∧
    parisSummary.p75_price_m2 = some 8000 ∧
    parisSummary.p75_price_m2 ≠ some 7500 := by
  refine ⟨by with_unfolding_all rfl, rfl, rfl, rfl, ?_, rfl, ?_⟩
  · intro hbad
    have := Option.some.inj hbad
    norm_num at this
  · intro hbad
    have := Option.some.inj hbad
    norm_num at this

/-- C9 (amended): the scenario's group yields exactly one summary row with
count 3 and median 7000, and — under the Polars default `nearest` quantile
interpolation — p25 = 7000 and p75 = 8000. -/
theorem aggregate_scenario_amended :
    aggregate_price threeParisRows ["Code commune"] 2 = [parisSummary] ∧
    parisSummary.n_sales = 3 ∧
    parisSummary.median_price_m2 = some 7000 ∧
    parisSummary.p25_price_m2 = some 7000 ∧
    parisSummary.p75_price_m2 = some 8000 :=
  ⟨by with_unfolding_all rfl, rfl, rfl, rfl, rfl⟩

/-- C8: with the department-to-region mapping unavailable, the degraded path
reports warnings without aborting, every row's region code is null, and the
region-level aggregation runs with all rows collapsed into the single
null-region group (at most one summary row per property type, each keyed by
the null region). -/
theorem add_region_code_degraded (reason : String) (rows : List Row)
    (min_sales : Nat) :
    (add_region_code (RegionMapping.unavailable reason) rows).2 ≠ [] ∧
    (∀ r ∈ (add_region_code (RegionMapping.unavailable reason) rows).1,
      r.code_region = none) ∧
    (∀ s ∈ aggregate_price
        (add_region_code (RegionMapping.unavailable reason) rows).1
        ["Code region"] min_sales, s.key = [none]) ∧
    (∀ s ∈ aggregate_price
        (add_region_code (RegionMapping.unavailable reason) rows).1
        ["Code region"] min_sales,
      ∀ s2 ∈ aggregate_price
        (add_region_code (RegionMapping.unavailable reason) rows).1
        ["Code region"] min_sales,
      s.type_local = s2.type_local → s = s2) := by
  have hnull : ∀ r ∈ (add_region_code (RegionMapping.unavailable reason) rows).1,
      r.code_region = none := by
    intro r hr
    rcases List.mem_map.mp hr with ⟨r0, _, heq⟩
    rw [← heq]
  have hkey : ∀ k ∈ groupKeys ["Code region"]
      (add_region_code (RegionMapping.unavailable reason) rows).1,
      k.1 = [none] := by
    intro k hk
    have hk1 := uniqueBy_subset _ hk
    rcases List.mem_map.mp hk1 with ⟨r0, hr0, heq⟩
    rw [← heq]
    show [getStrCol r0 "Code region"] = [none]
    rw [show getStrCol r0 "Code region" = r0.code_region from rfl,
      hnull r0 hr0]
  refine ⟨by simp [add_region_code], hnull, ?_, ?_⟩
  · intro s hs
    obtain ⟨k, hkmem, heq, _⟩ := mem_aggregate_price hs
    rw [heq]
    show k.1 = [none]
    exact hkey k hkmem
  · intro s hs s2 hs2 htl
    obtain ⟨k, hkmem, heq, _⟩ := mem_aggregate_price hs
    obtain ⟨k2, hkmem2, heq2, _⟩ := mem_aggregate_price hs2
    have h1 : k.1 = [none] := hkey k hkmem
    have h2 : k2.1 = [none] := hkey k2 hkmem2
    have ht : k.2 = k2.2 := by
      have e1 : s.type_local = k.2 := by rw [heq]; rfl
      have e2 : s2.type_local = k2.2 := by rw [heq2]; rfl
      rw [← e1, ← e2, htl]
    have : k = k2 := by
      cases k; cases k2; simp_all
    rw [heq, heq2, this]

/-- Two departments, same property type. -/
def rRow (dep : String) : Row :=
  { code_departement := some dep, type_local := some "Maison",
    price_m2 := some 2000 }

/-- Witness for C8 at a concrete two-department table. -/
theorem add_region_code_degraded_witness :
    (add_region_code (RegionMapping.unavailable "no gpkg")
      [rRow "75", rRow "13"]).2 ≠ [] ∧
    (∀ s ∈ aggregate_price
        (add_region_code (RegionMapping.unavailable "no gpkg")
          [rRow "75", rRow "13"]).1 ["Code region"] 1,
      s.key = [none]) :=
  ⟨(add_region_code_degraded "no gpkg" [rRow "75", rRow "13"] 1).1,
   (add_region_code_degraded "no gpkg" [rRow "75", rRow "13"] 1).2.2.1⟩

/-- Witness for C5 applying the parsing contract at one more string. -/
theorem parse_float_fr_spec_witness :
    parse_float_fr (some "7,5") =
      strictFloatOfString (String.mk (commaToDotFirst (stripWs "7,5").toList)) :=
  parse_float_fr_spec.1 "7,5"

end DVF
